import Mathlib

/-!
A shallow embedding of the zipcar datastore (`zipcar.go`): a content-addressed
key/value store persisted as a ZIP archive.  The store keeps an open-time
index of archive entries and an in-memory cache overlay; Put/Delete stage
mutations in the cache and Close rewrites the archive when the store was
modified.  The external content-identifier and key-helper libraries are
modelled from the contract the spec gives for them; everything else follows
the Go source.
-/

set_option maxRecDepth 8000

namespace Zipcar

/-- Error results surfaced by the datastore, following the error kinds of the
spec: invalid keys, missing records, propagated I/O failures, and the
deliberately unimplemented query operation. -/
inductive Err where
  | invalidKey
  | notFound
  | ioErr (msg : String)
  | unimplemented
deriving DecidableEq

/-- Modelled from the spec: the external content-identifier library.  A CID
carries a declared version number and an opaque hash digest. -/
structure Cid where
  version : Nat
  digest : Nat
deriving DecidableEq

/-- The two multibase encoding schemes that `dsKeyToCidString` selects from. -/
inductive MBase where
  | base58btc
  | base32
deriving DecidableEq

/-- Modelled from the spec: the legacy (base58btc) string form of an
identifier, used for version-0 identifiers. -/
def base58Str (c : Cid) : String := "Qm" ++ toString c.digest

/-- Modelled from the spec: the modern (base32) string form of an identifier. -/
def base32Str (c : Cid) : String := "b" ++ toString c.version ++ "x" ++ toString c.digest

/-- Modelled from the spec: `identifier.encode_base(scheme)` of the external
identifier library.  A version-0 identifier only has the legacy base58btc
string form; asking for any other scheme fails. -/
def Cid.StringOfBase (c : Cid) (b : MBase) : Except Err String :=
  if c.version = 0 ∧ b ≠ MBase.base58btc then Except.error Err.invalidKey
  else
    match b with
    | MBase.base58btc => Except.ok (base58Str c)
    | MBase.base32 => Except.ok (base32Str c)

/-- Modelled from the spec: an opaque datastore key either round-trips to a
content identifier or fails to decode. -/
abbrev DsKey := Option Cid

/-- Modelled from the spec: `decode(opaque bytes) -> identifier | error`, the
external key-helper that turns a datastore key into a content identifier. -/
def DsKeyToCid (key : DsKey) : Except Err Cid :=
  match key with
  | none => Except.error Err.invalidKey
  | some c => Except.ok c

/-- `dsKeyToCidString` from `zipcar.go`: decode the key to a CID and render it
with base58btc when the version is 0 and with base32 otherwise. -/
def dsKeyToCidString (key : DsKey) : Except Err String :=
  match DsKeyToCid key with
  | Except.error e => Except.error e
  | Except.ok c =>
    if c.version = 0 then c.StringOfBase MBase.base58btc
    else c.StringOfBase MBase.base32

/-- The canonical record name of a valid key, as `dsKeyToCidString` computes
it: base58btc form for version-0 identifiers, base32 form otherwise. -/
def canonName (c : Cid) : String :=
  if c.version = 0 then base58Str c else base32Str c

/-- Model of one `*zip.File` entry of the archive that was open at
`NewDatastore` time: its name, its payload, and fault hooks recording whether
`Open` or `ReadAll` on it fails (`partBytes` being the bytes `ReadAll` hands
back next to an error). -/
structure ZipFile where
  name : String
  content : List Nat
  openErr : Option String := none
  readErr : Option String := none
  partBytes : List Nat := []
deriving DecidableEq

/-- A Go `map` whose values may be `nil`: an association list from names to
nullable values.  Reading an absent name and reading a name stored as `nil`
both yield `nil`, but the name is only present as a key in the second case. -/
abbrev GoMap (V : Type) := List (String × Option V)

/-- Go map lookup that distinguishes an absent key (`none`) from a key that is
present with a possibly-`nil` value. -/
def GoMap.lookup {V : Type} : GoMap V → String → Option (Option V)
  | [], _ => none
  | (k', v') :: rest, k => if k' = k then some v' else GoMap.lookup rest k

/-- Go map read `m[k]`: the stored value when the key is present, `nil`
otherwise. -/
def GoMap.read {V : Type} (m : GoMap V) (k : String) : Option V :=
  (GoMap.lookup m k).join

/-- Go map assignment `m[k] = v`: replace the binding in place when the key is
present, append a new binding otherwise. -/
def GoMap.set {V : Type} : GoMap V → String → Option V → GoMap V
  | [], k, v => [(k, v)]
  | (k', v') :: rest, k, v =>
    if k' = k then (k, v) :: rest else (k', v') :: GoMap.set rest k v

/-- The names present as keys of a Go map. -/
def GoMap.keys {V : Type} (m : GoMap V) : List String := m.map Prod.fst

/-- The `ZipDatastore` struct of `zipcar.go`: the open-time index of archive
entries, the in-memory cache overlay, and the modified flag.  The `file`
handle is represented by the disk value threaded through `NewDatastore` and
`Close`. -/
structure ZipDatastore where
  index : GoMap ZipFile
  cache : GoMap (List Nat)
  modified : Bool
deriving DecidableEq

/-- `ioutil.ReadAll` applied to an opened entry: the full payload on success,
or the partially-read bytes together with the error. -/
def readAllF (f : ZipFile) : List Nat × Option String :=
  match f.readErr with
  | some e => (f.partBytes, some e)
  | none => (f.content, none)

/-- The private `has` of `zipcar.go`, after key canonicalization: the cache
holds a non-nil payload for the name, or the index holds a non-nil entry. -/
def ZipDatastore.hasName (z : ZipDatastore) (n : String) : Bool :=
  (GoMap.read z.cache n).isSome || (GoMap.read z.index n).isSome

/-- The body of `Put` after key canonicalization: a silent no-op when the
record already logically exists, otherwise set the modified flag and cache
the value. -/
def ZipDatastore.putName (z : ZipDatastore) (n : String) (value : Option (List Nat)) :
    ZipDatastore :=
  if z.hasName n then z
  else { z with modified := true, cache := GoMap.set z.cache n value }

/-- The body of `Get` after key canonicalization: cache hit returns the cached
bytes; nil index entry is `ErrNotFound`; otherwise the entry is opened and
read, the bytes are memoized into the cache, and a read failure is returned
after the partial bytes were already cached. -/
def ZipDatastore.getName (z : ZipDatastore) (n : String) :
    ZipDatastore × Except Err (List Nat) :=
  match GoMap.read z.cache n with
  | some v => (z, Except.ok v)
  | none =>
    match GoMap.read z.index n with
    | none => (z, Except.error Err.notFound)
    | some f =>
      match f.openErr with
      | some e => (z, Except.error (Err.ioErr e))
      | none =>
        match (readAllF f).2 with
        | some e => ({ z with cache := GoMap.set z.cache n (some (readAllF f).1) },
            Except.error (Err.ioErr e))
        | none => ({ z with cache := GoMap.set z.cache n (some (readAllF f).1) },
            Except.ok (readAllF f).1)

/-- The body of `Delete` after key canonicalization: null out both the cache
and the index binding for the name.  It does not touch the modified flag. -/
def ZipDatastore.deleteName (z : ZipDatastore) (n : String) : ZipDatastore :=
  { z with cache := GoMap.set z.cache n none, index := GoMap.set z.index n none }

/-- The body of `GetSize` after key canonicalization: length of the cached
payload on a cache hit, else the size recorded for the index entry, else
`ErrNotFound`. -/
def ZipDatastore.getSizeName (z : ZipDatastore) (n : String) : Except Err Nat :=
  match GoMap.read z.cache n with
  | some v => Except.ok v.length
  | none =>
    match GoMap.read z.index n with
    | none => Except.error Err.notFound
    | some f => Except.ok f.content.length

/-- `Put` of `zipcar.go`. -/
def ZipDatastore.Put (z : ZipDatastore) (key : DsKey) (value : Option (List Nat)) :
    ZipDatastore × Option Err :=
  match dsKeyToCidString key with
  | Except.error e => (z, some e)
  | Except.ok n => (z.putName n value, none)

/-- `Get` of `zipcar.go`. -/
def ZipDatastore.Get (z : ZipDatastore) (key : DsKey) :
    ZipDatastore × Except Err (List Nat) :=
  match dsKeyToCidString key with
  | Except.error e => (z, Except.error e)
  | Except.ok n => z.getName n

/-- `Has` of `zipcar.go`. -/
def ZipDatastore.Has (z : ZipDatastore) (key : DsKey) : Except Err Bool :=
  match dsKeyToCidString key with
  | Except.error e => Except.error e
  | Except.ok n => Except.ok (z.hasName n)

/-- `Delete` of `zipcar.go`. -/
def ZipDatastore.Delete (z : ZipDatastore) (key : DsKey) : ZipDatastore × Option Err :=
  match dsKeyToCidString key with
  | Except.error e => (z, some e)
  | Except.ok n => (z.deleteName n, none)

/-- `GetSize` of `zipcar.go`. -/
def ZipDatastore.GetSize (z : ZipDatastore) (key : DsKey) : Except Err Nat :=
  match dsKeyToCidString key with
  | Except.error e => Except.error e
  | Except.ok n => z.getSizeName n

/-- `Query` of `zipcar.go`: always fails with the unimplemented error. -/
def ZipDatastore.Query (_z : ZipDatastore) : Except Err Unit :=
  Except.error Err.unimplemented

/-- The index-building loop of `NewDatastore`: record `name -> entry` for
every entry of the open archive. -/
def buildIndexFrom (acc : GoMap ZipFile) (es : List ZipFile) : GoMap ZipFile :=
  es.foldl (fun m f => GoMap.set m f.name (some f)) acc

/-- `NewDatastore` of `zipcar.go`: when the path exists its entry directory is
read into the index, otherwise the store starts empty; the cache starts empty
and the modified flag false. -/
def NewDatastore (disk : Option (List ZipFile)) : ZipDatastore :=
  { index := buildIndexFrom [] (disk.getD [])
    cache := []
    modified := false }

/-- The materialization loop of `Close`: for every non-nil index entry whose
name is not already cached, open it (an `Open` failure aborts `Close` with
that error) and read its payload into the cache.  The error `ReadAll` returns
is assigned but never checked in the source, so a read failure leaves the
partial bytes in the cache and the loop continues. -/
def closeMaterialize :
    List (String × Option ZipFile) → GoMap (List Nat) → Except Err (GoMap (List Nat))
  | [], cache => Except.ok cache
  | (_, none) :: rest, cache => closeMaterialize rest cache
  | (n, some f) :: rest, cache =>
    match GoMap.read cache n with
    | some _ => closeMaterialize rest cache
    | none =>
      match f.openErr with
      | some e => Except.error (Err.ioErr e)
      | none => closeMaterialize rest (GoMap.set cache n (some (readAllF f).1))

/-- The rewrite loop of `Close`: one fresh, healthy archive entry per non-nil
cache binding. -/
def rewriteEntries : GoMap (List Nat) → List ZipFile
  | [] => []
  | (_, none) :: rest => rewriteEntries rest
  | (n, some v) :: rest => { name := n, content := v } :: rewriteEntries rest

/-- `Close` of `zipcar.go`: when the store is unmodified, release the handle
and leave the disk as it is; when modified, materialize every live index
entry into the cache and rewrite the archive from scratch out of the non-nil
cache bindings. -/
def ZipDatastore.Close (z : ZipDatastore) (disk : Option (List ZipFile)) :
    Except Err (Option (List ZipFile)) :=
  if z.modified then
    match closeMaterialize z.index z.cache with
    | Except.error e => Except.error e
    | Except.ok cache2 => Except.ok (some (rewriteEntries cache2))
  else Except.ok disk

/-- One public store operation, for reasoning about arbitrary post-open
operation sequences. -/
inductive Op where
  | putOp (k : DsKey) (v : Option (List Nat))
  | getOp (k : DsKey)
  | hasOp (k : DsKey)
  | deleteOp (k : DsKey)
  | sizeOp (k : DsKey)
deriving DecidableEq

/-- The state transition of one public operation (`Has` and `GetSize` do not
change the store). -/
def applyOp (z : ZipDatastore) : Op → ZipDatastore
  | Op.putOp k v => (z.Put k v).1
  | Op.getOp k => (z.Get k).1
  | Op.hasOp _ => z
  | Op.deleteOp k => (z.Delete k).1
  | Op.sizeOp _ => z

/-- Run a sequence of public operations from a state. -/
def runOps (z : ZipDatastore) (ops : List Op) : ZipDatastore :=
  ops.foldl applyOp z

/-- Whether an operation is one of the read-only ones (get, has, size). -/
def isReadOp : Op → Bool
  | Op.getOp _ => true
  | Op.hasOp _ => true
  | Op.sizeOp _ => true
  | _ => false

/-- Put a list of records (CID keys with payloads) one after the other. -/
def putAllCid (z : ZipDatastore) (recs : List (Cid × List Nat)) : ZipDatastore :=
  recs.foldl (fun st r => (st.Put (some r.1) (some r.2)).1) z

/-- The canonical names of a record list. -/
def namesOf (recs : List (Cid × List Nat)) : List String :=
  recs.map (fun r => canonName r.1)

/-- The archive entries a close-time rewrite produces for a record list. -/
def closedEntries (recs : List (Cid × List Nat)) : List ZipFile :=
  recs.map (fun r => { name := canonName r.1, content := r.2 })

/-- The concrete delete-survives-rewrite scenario: put three records, close,
reopen, delete the second, close, reopen, and ask `Has` for the second. -/
def deleteSurvivesScenario : Except Err Bool :=
  let z0 := NewDatastore none
  let z1 := (z0.Put (some ⟨1, 1⟩) (some [10])).1
  let z2 := (z1.Put (some ⟨1, 2⟩) (some [20])).1
  let z3 := (z2.Put (some ⟨1, 3⟩) (some [30])).1
  match z3.Close none with
  | Except.error e => Except.error e
  | Except.ok disk1 =>
    let z4 := NewDatastore disk1
    let z5 := (z4.Delete (some ⟨1, 2⟩)).1
    match z5.Close disk1 with
    | Except.error e => Except.error e
    | Except.ok disk2 => (NewDatastore disk2).Has (some ⟨1, 2⟩)

/-- An archive entry whose payload read fails: `ReadAll` on it yields the
partial bytes `[7]` together with an error instead of the full `[7, 7]`. -/
def faultyEntry : ZipFile :=
  { name := "b1x9", content := [7, 7], readErr := some "disk read failed", partBytes := [7] }

/-- Open a store on an archive holding `faultyEntry`, put one fresh record so
the store is modified, and close, forcing the close-time materialization to
read the faulty payload. -/
def faultyCloseScenario : Except Err (Option (List ZipFile)) :=
  let z0 := NewDatastore (some [faultyEntry])
  let z1 := (z0.Put (some ⟨1, 5⟩) (some [1])).1
  z1.Close (some [faultyEntry])

/-! ## Lemmas about Go maps -/

theorem GoMap.lookup_set_self {V : Type} (m : GoMap V) (k : String) (v : Option V) :
    GoMap.lookup (GoMap.set m k v) k = some v := by
  induction m with
  | nil => simp [GoMap.set, GoMap.lookup]
  | cons p rest ih =>
    obtain ⟨k', v'⟩ := p
    by_cases h : k' = k <;> simp [GoMap.set, GoMap.lookup, h, ih]

theorem GoMap.keys_cons {V : Type} (k' : String) (v' : Option V) (rest : GoMap V) :
    GoMap.keys ((k', v') :: rest) = k' :: GoMap.keys rest := rfl

theorem GoMap.lookup_set_ne {V : Type} (m : GoMap V) (k k' : String) (v : Option V)
    (h : k' ≠ k) : GoMap.lookup (GoMap.set m k v) k' = GoMap.lookup m k' := by
  have h1 : ¬(k = k') := fun hh => h hh.symm
  induction m with
  | nil => simp [GoMap.set, GoMap.lookup, h1]
  | cons p rest ih =>
    obtain ⟨k₀, v₀⟩ := p
    by_cases h0 : k₀ = k
    · subst h0
      simp [GoMap.set, GoMap.lookup, h1]
    · simp [GoMap.set, GoMap.lookup, h0, ih]

theorem GoMap.read_set_self {V : Type} (m : GoMap V) (k : String) (v : Option V) :
    GoMap.read (GoMap.set m k v) k = v := by
  simp [GoMap.read, GoMap.lookup_set_self]

theorem GoMap.read_set_ne {V : Type} (m : GoMap V) (k k' : String) (v : Option V)
    (h : k' ≠ k) : GoMap.read (GoMap.set m k v) k' = GoMap.read m k' := by
  simp [GoMap.read, GoMap.lookup_set_ne m k k' v h]

theorem GoMap.lookup_eq_none_of_not_mem_keys {V : Type} (m : GoMap V) (k : String)
    (h : k ∉ GoMap.keys m) : GoMap.lookup m k = none := by
  induction m with
  | nil => rfl
  | cons p rest ih =>
    obtain ⟨k', v'⟩ := p
    rw [GoMap.keys_cons, List.mem_cons] at h
    push_neg at h
    have h1 : ¬(k' = k) := fun hh => h.1 hh.symm
    simp [GoMap.lookup, h1, ih h.2]

theorem GoMap.read_eq_none_of_not_mem_keys {V : Type} (m : GoMap V) (k : String)
    (h : k ∉ GoMap.keys m) : GoMap.read m k = none := by
  simp [GoMap.read, GoMap.lookup_eq_none_of_not_mem_keys m k h]

theorem GoMap.set_eq_append_of_not_mem_keys {V : Type} (m : GoMap V) (k : String)
    (v : Option V) (h : k ∉ GoMap.keys m) : GoMap.set m k v = m ++ [(k, v)] := by
  induction m with
  | nil => rfl
  | cons p rest ih =>
    obtain ⟨k', v'⟩ := p
    rw [GoMap.keys_cons, List.mem_cons] at h
    push_neg at h
    have h1 : ¬(k' = k) := fun hh => h.1 hh.symm
    simp [GoMap.set, h1, ih h.2]

theorem GoMap.keys_set_of_not_mem_keys {V : Type} (m : GoMap V) (k : String)
    (v : Option V) (h : k ∉ GoMap.keys m) :
    GoMap.keys (GoMap.set m k v) = GoMap.keys m ++ [k] := by
  rw [GoMap.set_eq_append_of_not_mem_keys m k v h]
  simp [GoMap.keys]

theorem GoMap.read_eq_some_iff_lookup {V : Type} (m : GoMap V) (k : String) (v : V) :
    GoMap.read m k = some v ↔ GoMap.lookup m k = some (some v) := by
  unfold GoMap.read
  cases h : GoMap.lookup m k with
  | none => simp
  | some ov => cases ov <;> simp

/-! ## Lemmas about canonicalization and the public wrappers -/

theorem dsKeyToCidString_some (c : Cid) :
    dsKeyToCidString (some c) = Except.ok (canonName c) := by
  by_cases h : c.version = 0 <;>
    simp [dsKeyToCidString, DsKeyToCid, Cid.StringOfBase, canonName, h]

theorem Put_some (z : ZipDatastore) (c : Cid) (v : Option (List Nat)) :
    z.Put (some c) v = (z.putName (canonName c) v, none) := by
  simp [ZipDatastore.Put, dsKeyToCidString_some]

theorem Get_some (z : ZipDatastore) (c : Cid) :
    z.Get (some c) = z.getName (canonName c) := by
  simp [ZipDatastore.Get, dsKeyToCidString_some]

theorem Has_some (z : ZipDatastore) (c : Cid) :
    z.Has (some c) = Except.ok (z.hasName (canonName c)) := by
  simp [ZipDatastore.Has, dsKeyToCidString_some]

theorem Delete_some (z : ZipDatastore) (c : Cid) :
    z.Delete (some c) = (z.deleteName (canonName c), none) := by
  simp [ZipDatastore.Delete, dsKeyToCidString_some]

theorem GetSize_some (z : ZipDatastore) (c : Cid) :
    z.GetSize (some c) = z.getSizeName (canonName c) := by
  simp [ZipDatastore.GetSize, dsKeyToCidString_some]

/-! ## Per-operation state facts -/

theorem getName_fst_index (z : ZipDatastore) (n : String) :
    ((z.getName n).1).index = z.index := by
  unfold ZipDatastore.getName
  split
  · rfl
  · split
    · rfl
    · split
      · rfl
      · split <;> rfl

theorem getName_fst_modified (z : ZipDatastore) (n : String) :
    ((z.getName n).1).modified = z.modified := by
  unfold ZipDatastore.getName
  split
  · rfl
  · split
    · rfl
    · split
      · rfl
      · split <;> rfl

theorem putName_fst_index (z : ZipDatastore) (n : String) (v : Option (List Nat)) :
    (z.putName n v).index = z.index := by
  unfold ZipDatastore.putName
  split <;> rfl

theorem putName_modified_mono (z : ZipDatastore) (n : String) (v : Option (List Nat))
    (h : z.modified = true) : (z.putName n v).modified = true := by
  unfold ZipDatastore.putName
  split
  · exact h
  · rfl

theorem Put_fst_index (z : ZipDatastore) (k : DsKey) (v : Option (List Nat)) :
    ((z.Put k v).1).index = z.index := by
  unfold ZipDatastore.Put
  split
  · rfl
  · exact putName_fst_index z _ v

theorem Get_fst_index (z : ZipDatastore) (k : DsKey) :
    ((z.Get k).1).index = z.index := by
  unfold ZipDatastore.Get
  split
  · rfl
  · exact getName_fst_index z _

theorem Get_fst_modified (z : ZipDatastore) (k : DsKey) :
    ((z.Get k).1).modified = z.modified := by
  unfold ZipDatastore.Get
  split
  · rfl
  · exact getName_fst_modified z _

theorem Put_fst_modified_mono (z : ZipDatastore) (k : DsKey) (v : Option (List Nat))
    (h : z.modified = true) : ((z.Put k v).1).modified = true := by
  unfold ZipDatastore.Put
  split
  · exact h
  · exact putName_modified_mono z _ v h

theorem deleteName_index_read (z : ZipDatastore) (n' n : String) (f : ZipFile)
    (h : GoMap.read ((z.deleteName n').index) n = some f) :
    GoMap.read z.index n = some f := by
  unfold ZipDatastore.deleteName at h
  dsimp only at h
  by_cases hn : n = n'
  · subst hn
    rw [GoMap.read_set_self] at h
    cases h
  · rwa [GoMap.read_set_ne _ _ _ _ hn] at h

theorem Delete_fst_index_read (z : ZipDatastore) (k : DsKey) (n : String) (f : ZipFile)
    (h : GoMap.read ((z.Delete k).1).index n = some f) : GoMap.read z.index n = some f := by
  unfold ZipDatastore.Delete at h
  split at h
  · exact h
  · exact deleteName_index_read z _ n f h

theorem applyOp_index_read (z : ZipDatastore) (op : Op) (n : String) (f : ZipFile)
    (h : GoMap.read ((applyOp z op).index) n = some f) :
    GoMap.read z.index n = some f := by
  cases op with
  | putOp k v => rw [applyOp, Put_fst_index] at h; exact h
  | getOp k => rw [applyOp, Get_fst_index] at h; exact h
  | hasOp k => exact h
  | deleteOp k => exact Delete_fst_index_read z k n f h
  | sizeOp k => exact h

theorem runOps_index_read (ops : List Op) :
    ∀ (z : ZipDatastore) (n : String) (f : ZipFile),
      GoMap.read ((runOps z ops).index) n = some f → GoMap.read z.index n = some f := by
  induction ops with
  | nil => intro z n f h; exact h
  | cons op rest ih =>
    intro z n f h
    exact applyOp_index_read z op n f (ih (applyOp z op) n f h)

theorem applyOp_readOnly_modified (z : ZipDatastore) (op : Op) (h : isReadOp op = true) :
    (applyOp z op).modified = z.modified := by
  cases op with
  | putOp k v => simp [isReadOp] at h
  | getOp k => exact Get_fst_modified z k
  | hasOp k => rfl
  | deleteOp k => simp [isReadOp] at h
  | sizeOp k => rfl

theorem runOps_readOnly_modified (ops : List Op) :
    ∀ z : ZipDatastore, (∀ op ∈ ops, isReadOp op = true) →
      (runOps z ops).modified = z.modified := by
  induction ops with
  | nil => intro z _; rfl
  | cons op rest ih =>
    intro z h
    have h1 := ih (applyOp z op) (fun o ho => h o (List.mem_cons_of_mem op ho))
    rw [show runOps z (op :: rest) = runOps (applyOp z op) rest from rfl, h1]
    exact applyOp_readOnly_modified z op (h op (List.mem_cons_self op rest))

theorem getName_snd_index_hit (z : ZipDatastore) (n : String) (f : ZipFile)
    (hc : GoMap.read z.cache n = none) (hi : GoMap.read z.index n = some f)
    (ho : f.openErr = none) (hr : f.readErr = none) :
    (z.getName n).2 = Except.ok f.content := by
  unfold ZipDatastore.getName
  simp only [hc, hi, ho, readAllF, hr]

theorem getSizeName_index_hit (z : ZipDatastore) (n : String) (f : ZipFile)
    (hc : GoMap.read z.cache n = none) (hi : GoMap.read z.index n = some f) :
    z.getSizeName n = Except.ok f.content.length := by
  unfold ZipDatastore.getSizeName
  simp only [hc, hi]

/-! ## Lemmas about index construction and bulk puts -/

theorem buildIndexFrom_cons (acc : GoMap ZipFile) (f : ZipFile) (rest : List ZipFile) :
    buildIndexFrom acc (f :: rest) = buildIndexFrom (GoMap.set acc f.name (some f)) rest := rfl

theorem buildIndexFrom_lookup_of_forall_ne (es : List ZipFile) (n : String)
    (h : ∀ f ∈ es, f.name ≠ n) :
    ∀ acc : GoMap ZipFile, GoMap.lookup (buildIndexFrom acc es) n = GoMap.lookup acc n := by
  induction es with
  | nil => intro acc; rfl
  | cons f rest ih =>
    intro acc
    rw [buildIndexFrom_cons,
      ih (fun g hg => h g (List.mem_cons_of_mem f hg)) _]
    exact GoMap.lookup_set_ne acc f.name n (some f)
      (fun hh => h f (List.mem_cons_self f rest) hh.symm)

theorem buildIndexFrom_read_of_mem (es : List ZipFile)
    (hnd : (es.map ZipFile.name).Nodup) (f : ZipFile) (hf : f ∈ es) :
    ∀ acc : GoMap ZipFile, GoMap.read (buildIndexFrom acc es) f.name = some f := by
  induction es with
  | nil => cases hf
  | cons g rest ih =>
    intro acc
    rw [List.map_cons, List.nodup_cons] at hnd
    rcases List.mem_cons.mp hf with hfg | hf'
    · subst hfg
      have hne : ∀ g ∈ rest, ZipFile.name g ≠ f.name := by
        intro g hg hgn
        exact hnd.1 (hgn ▸ List.mem_map_of_mem ZipFile.name hg)
      rw [buildIndexFrom_cons, GoMap.read,
        buildIndexFrom_lookup_of_forall_ne rest f.name hne _, GoMap.lookup_set_self]
      rfl
    · rw [buildIndexFrom_cons]
      exact ih hnd.2 hf' _

theorem buildIndexFrom_lookup_mem (es : List ZipFile) (n : String) (f : ZipFile) :
    ∀ acc : GoMap ZipFile, GoMap.lookup (buildIndexFrom acc es) n = some (some f) →
      GoMap.lookup acc n = some (some f) ∨ (f ∈ es ∧ f.name = n) := by
  induction es with
  | nil => intro acc h; exact Or.inl h
  | cons g rest ih =>
    intro acc h
    rw [buildIndexFrom_cons] at h
    rcases ih _ h with h' | h'
    · by_cases hg : g.name = n
      · subst hg
        rw [GoMap.lookup_set_self] at h'
        have hgf : g = f := by
          have h1 := Option.some.inj h'
          exact Option.some.inj h1
        exact Or.inr ⟨hgf ▸ List.mem_cons_self g rest, hgf ▸ rfl⟩
      · rw [GoMap.lookup_set_ne acc g.name n (some g) (fun hh => hg hh.symm)] at h'
        exact Or.inl h'
    · exact Or.inr ⟨List.mem_cons_of_mem g h'.1, h'.2⟩

theorem putAllCid_cons (z : ZipDatastore) (r : Cid × List Nat) (rest : List (Cid × List Nat)) :
    putAllCid z (r :: rest) = putAllCid ((z.Put (some r.1) (some r.2)).1) rest := rfl

theorem putAllCid_modified_mono (recs : List (Cid × List Nat)) :
    ∀ z : ZipDatastore, z.modified = true → (putAllCid z recs).modified = true := by
  induction recs with
  | nil => intro z h; exact h
  | cons r rest ih =>
    intro z h
    rw [putAllCid_cons]
    exact ih _ (Put_fst_modified_mono z _ _ h)

theorem put_step_fresh (z : ZipDatastore) (c : Cid) (v : List Nat)
    (hidx : z.index = []) (hn : canonName c ∉ GoMap.keys z.cache) :
    (z.Put (some c) (some v)).1
      = { z with modified := true, cache := GoMap.set z.cache (canonName c) (some v) } := by
  have hcache : GoMap.read z.cache (canonName c) = none :=
    GoMap.read_eq_none_of_not_mem_keys _ _ hn
  have hindex : GoMap.read z.index (canonName c) = none := by
    rw [hidx]; rfl
  have hhas : z.hasName (canonName c) = false := by
    simp [ZipDatastore.hasName, hcache, hindex]
  rw [show (z.Put (some c) (some v)).1 = z.putName (canonName c) (some v) by
    rw [Put_some]]
  unfold ZipDatastore.putName
  rw [hhas]
  simp

theorem putAllCid_spec (recs : List (Cid × List Nat)) (hnd : (namesOf recs).Nodup) :
    ∀ z : ZipDatastore, z.index = [] →
      (∀ r ∈ recs, canonName r.1 ∉ GoMap.keys z.cache) →
      (putAllCid z recs).index = [] ∧
      (putAllCid z recs).cache
        = z.cache ++ recs.map (fun r => (canonName r.1, some r.2)) := by
  induction recs with
  | nil =>
    intro z hidx _
    exact ⟨hidx, by simp [putAllCid]⟩
  | cons r rest ih =>
    intro z hidx hkeys
    rw [namesOf, List.map_cons, List.nodup_cons] at hnd
    have hn : canonName r.1 ∉ GoMap.keys z.cache := hkeys r (List.mem_cons_self r rest)
    have hstep := put_step_fresh z r.1 r.2 hidx hn
    have hkeys1 : GoMap.keys (GoMap.set z.cache (canonName r.1) (some r.2))
        = GoMap.keys z.cache ++ [canonName r.1] :=
      GoMap.keys_set_of_not_mem_keys _ _ _ hn
    have hkeys' : ∀ r' ∈ rest,
        canonName r'.1 ∉ GoMap.keys (GoMap.set z.cache (canonName r.1) (some r.2)) := by
      intro r' hr'
      rw [hkeys1]
      intro hmem
      rcases List.mem_append.mp hmem with hmem | hmem
      · exact hkeys r' (List.mem_cons_of_mem r hr') hmem
      · rcases List.mem_singleton.mp hmem with heq
        exact hnd.1 (heq ▸ List.mem_map_of_mem (fun p => canonName p.1) hr')
    have hres := ih hnd.2
      { z with modified := true, cache := GoMap.set z.cache (canonName r.1) (some r.2) }
      hidx hkeys'
    rw [putAllCid_cons, hstep]
    refine ⟨hres.1, ?_⟩
    rw [hres.2]
    dsimp only
    rw [GoMap.set_eq_append_of_not_mem_keys _ _ _ hn, List.map_cons, List.append_assoc]
    rfl

theorem putAllCid_modified_of_cons (r : Cid × List Nat) (rest : List (Cid × List Nat))
    (z : ZipDatastore) (hidx : z.index = [])
    (hn : canonName r.1 ∉ GoMap.keys z.cache) :
    (putAllCid z (r :: rest)).modified = true := by
  rw [putAllCid_cons, put_step_fresh z r.1 r.2 hidx hn]
  exact putAllCid_modified_mono rest _ rfl

theorem rewriteEntries_map (recs : List (Cid × List Nat)) :
    rewriteEntries (recs.map (fun r => (canonName r.1, some r.2))) = closedEntries recs := by
  induction recs with
  | nil => rfl
  | cons r rest ih =>
    rw [List.map_cons, rewriteEntries, closedEntries, List.map_cons]
    rw [closedEntries] at ih
    rw [ih]

theorem closedEntries_names (recs : List (Cid × List Nat)) :
    (closedEntries recs).map ZipFile.name = namesOf recs := by
  rw [closedEntries, namesOf, List.map_map]
  rfl

/-! ## Claim theorems -/

/-- C1: the claim states that any successful `Delete` sets the modified flag
of the store to true.  Evaluating the code at a fresh store and the valid key
of CID (version 1, digest 7): `Delete` succeeds (returns no error) yet the
modified flag is still false afterwards — `Delete` never touches the flag,
contradicting the doc comment of `Delete` in the source, which promises a
full rewrite upon `Close`. -/
theorem delete_leaves_store_unmodified :
    ((NewDatastore none).Delete (some ⟨1, 7⟩)).2 = none ∧
    ((NewDatastore none).Delete (some ⟨1, 7⟩)).1.modified = false :=
  ⟨rfl, rfl⟩

/-- C2: the claim states that after put k1,k2,k3 / close / reopen / delete k2 /
close / reopen, `has(k2)` is false.  Evaluating the code on the three distinct
valid keys with CIDs (1,1), (1,2), (1,3): the final `Has` on k2 returns true,
because `Delete` left the modified flag false and the second `Close` skipped
the rewrite, so k2 survived on disk. -/
theorem delete_lost_after_second_close :
    deleteSurvivesScenario = Except.ok true := rfl

/-- C5: within one session, after `Delete(k)` on a valid key, `Delete`
succeeded, `Has(k)` is false, and `Get(k)` fails with not-found — from every
prior store state, so both when k existed before the delete and when it never
existed. -/
theorem delete_then_miss (z : ZipDatastore) (c : Cid) :
    (z.Delete (some c)).2 = none ∧
    (z.Delete (some c)).1.Has (some c) = Except.ok false ∧
    ((z.Delete (some c)).1.Get (some c)).2 = Except.error Err.notFound := by
  have hst : (z.Delete (some c)).1 = z.deleteName (canonName c) := by
    rw [Delete_some]
  have hc : GoMap.read (z.deleteName (canonName c)).cache (canonName c) = none := by
    unfold ZipDatastore.deleteName
    dsimp only
    exact GoMap.read_set_self _ _ _
  have hi : GoMap.read (z.deleteName (canonName c)).index (canonName c) = none := by
    unfold ZipDatastore.deleteName
    dsimp only
    exact GoMap.read_set_self _ _ _
  refine ⟨by rw [Delete_some], ?_, ?_⟩
  · rw [hst, Has_some]
    simp [ZipDatastore.hasName, hc, hi]
  · rw [hst, Get_some]
    unfold ZipDatastore.getName
    simp only [hc, hi]

/-- C6: canonicalization is a deterministic pure function of the key: a key
that decodes to an identifier canonicalizes to the base58btc string form when
the version is 0 and to the base32 string form otherwise (that is exactly
`canonName`), and a key that does not decode fails with an error. -/
theorem dsKeyToCidString_spec (key : DsKey) :
    dsKeyToCidString key =
      match key with
      | none => Except.error Err.invalidKey
      | some c => Except.ok (canonName c) := by
  cases key with
  | none => rfl
  | some c => exact dsKeyToCidString_some c

/-- C7: the claim states that a failure reading the payload of an archive
entry during the close-time materialization makes `Close` return that error.
Evaluating the code on a store holding `faultyEntry` (whose `ReadAll` fails
after yielding the partial bytes [7]) plus one freshly put record: `Close`
returns success, silently rewriting the archive with the truncated payload
[7] instead of the real [7, 7] — the error `ReadAll` returns is assigned but
never checked in the source. -/
theorem close_swallows_read_error :
    faultyCloseScenario
      = Except.ok (some [{ name := "b1x5", content := [1] },
          { name := "b1x9", content := [7] }]) := rfl

/-- C3: every set of records (valid keys, pairwise distinct canonical names)
put into a fresh store and closed produces an archive from which a fresh open
serves every record byte-identically via `Get`, with `GetSize` equal to the
payload length. -/
theorem roundtrip_after_close (recs : List (Cid × List Nat))
    (hnd : (namesOf recs).Nodup) (c : Cid) (v : List Nat) (hmem : (c, v) ∈ recs) :
    (putAllCid (NewDatastore none) recs).Close none
      = Except.ok (some (closedEntries recs)) ∧
    ((NewDatastore (some (closedEntries recs))).Get (some c)).2 = Except.ok v ∧
    (NewDatastore (some (closedEntries recs))).GetSize (some c)
      = Except.ok v.length := by
  have hfresh : (NewDatastore none).index = [] := rfl
  have hkeys0 : ∀ r ∈ recs, canonName r.1 ∉ GoMap.keys (NewDatastore none).cache := by
    intro r _ hmem'
    cases hmem'
  obtain ⟨hidx, hcache⟩ := putAllCid_spec recs hnd (NewDatastore none) hfresh hkeys0
  have hmod : (putAllCid (NewDatastore none) recs).modified = true := by
    cases recs with
    | nil => cases hmem
    | cons r rest =>
      exact putAllCid_modified_of_cons r rest (NewDatastore none) rfl
        (fun hh => absurd hh (List.not_mem_nil _))
  have hclose : (putAllCid (NewDatastore none) recs).Close none
      = Except.ok (some (closedEntries recs)) := by
    unfold ZipDatastore.Close
    rw [hmod, hidx]
    have hmat : closeMaterialize [] (putAllCid (NewDatastore none) recs).cache
        = Except.ok ((putAllCid (NewDatastore none) recs).cache) := rfl
    rw [hmat] at *
    simp only [if_true]
    rw [hcache, show (NewDatastore none).cache = [] from rfl, List.nil_append,
      rewriteEntries_map]
  have hndE : ((closedEntries recs).map ZipFile.name).Nodup := by
    rw [closedEntries_names]
    exact hnd
  have hentry : ({ name := canonName c, content := v } : ZipFile) ∈ closedEntries recs :=
    List.mem_map_of_mem _ hmem
  have hread : GoMap.read (NewDatastore (some (closedEntries recs))).index (canonName c)
      = some { name := canonName c, content := v } :=
    buildIndexFrom_read_of_mem (closedEntries recs) hndE _ hentry []
  have hcache2 : GoMap.read (NewDatastore (some (closedEntries recs))).cache (canonName c)
      = none := rfl
  refine ⟨hclose, ?_, ?_⟩
  · rw [Get_some]
    exact getName_snd_index_hit _ _ _ hcache2 hread rfl rfl
  · rw [GetSize_some]
    exact getSizeName_index_hit _ _ _ hcache2 hread

/-- Witness for C3 at two concrete records. -/
theorem roundtrip_after_close_witness :
    (namesOf [(⟨0, 1⟩, [1, 2]), (⟨1, 2⟩, [3])]).Nodup ∧
    ((⟨0, 1⟩, [1, 2]) ∈ ([(⟨0, 1⟩, [1, 2]), (⟨1, 2⟩, [3])] : List (Cid × List Nat))) ∧
    ((putAllCid (NewDatastore none) [(⟨0, 1⟩, [1, 2]), (⟨1, 2⟩, [3])]).Close none
        = Except.ok (some (closedEntries [(⟨0, 1⟩, [1, 2]), (⟨1, 2⟩, [3])])) ∧
      ((NewDatastore (some (closedEntries [(⟨0, 1⟩, [1, 2]), (⟨1, 2⟩, [3])]))).Get
          (some ⟨0, 1⟩)).2 = Except.ok [1, 2] ∧
      (NewDatastore (some (closedEntries [(⟨0, 1⟩, [1, 2]), (⟨1, 2⟩, [3])]))).GetSize
          (some ⟨0, 1⟩) = Except.ok 2) :=
  ⟨by decide, by decide,
    roundtrip_after_close [(⟨0, 1⟩, [1, 2]), (⟨1, 2⟩, [3])] (by decide) ⟨0, 1⟩ [1, 2]
      (by decide)⟩

/-- C4: when the record for a valid key does not yet logically exist, putting
v1 and then v2 under that key both return no error, and `Get` afterwards
returns v1 — the first write wins and the second put is a silent no-op. -/
theorem put_first_wins (z : ZipDatastore) (c : Cid) (v1 v2 : List Nat)
    (hfresh : z.hasName (canonName c) = false) :
    (z.Put (some c) (some v1)).2 = none ∧
    ((z.Put (some c) (some v1)).1.Put (some c) (some v2)).2 = none ∧
    (((z.Put (some c) (some v1)).1.Put (some c) (some v2)).1.Get (some c)).2
      = Except.ok v1 := by
  have h1 : (z.Put (some c) (some v1)).1
      = { z with
          modified := true
          cache := GoMap.set z.cache (canonName c) (some v1) } := by
    rw [Put_some]
    unfold ZipDatastore.putName
    rw [hfresh]
    simp
  have hread : GoMap.read (GoMap.set z.cache (canonName c) (some v1)) (canonName c)
      = some v1 := GoMap.read_set_self _ _ _
  have hhas2 : ({ z with
      modified := true
      cache := GoMap.set z.cache (canonName c) (some v1) } : ZipDatastore).hasName
        (canonName c) = true := by
    simp [ZipDatastore.hasName, hread]
  have h2 : ((z.Put (some c) (some v1)).1.Put (some c) (some v2)).1
      = { z with
          modified := true
          cache := GoMap.set z.cache (canonName c) (some v1) } := by
    rw [h1, Put_some]
    unfold ZipDatastore.putName
    rw [hhas2]
    simp
  refine ⟨by rw [Put_some], by rw [h1, Put_some], ?_⟩
  rw [h2, Get_some]
  unfold ZipDatastore.getName
  dsimp only
  simp only [hread]

/-- Witness for C4 on a fresh store. -/
theorem put_first_wins_witness :
    (NewDatastore none).hasName (canonName ⟨1, 7⟩) = false ∧
    (((NewDatastore none).Put (some ⟨1, 7⟩) (some [1])).2 = none ∧
      (((NewDatastore none).Put (some ⟨1, 7⟩) (some [1])).1.Put (some ⟨1, 7⟩)
          (some [2])).2 = none ∧
      ((((NewDatastore none).Put (some ⟨1, 7⟩) (some [1])).1.Put (some ⟨1, 7⟩)
          (some [2])).1.Get (some ⟨1, 7⟩)).2 = Except.ok [1]) :=
  ⟨rfl, put_first_wins (NewDatastore none) ⟨1, 7⟩ [1] [2] rfl⟩

/-- C8: a store opened on an existing archive and driven only by read
operations (get, has, size — `Get` is read-through and never marks the store
modified) is still unmodified at close, and `Close` performs no rewrite: the
disk keeps exactly its open-time entries and payloads. -/
theorem unmodified_close_is_noop (es : List ZipFile) (ops : List Op)
    (h : ∀ op ∈ ops, isReadOp op = true) :
    (runOps (NewDatastore (some es)) ops).modified = false ∧
    (runOps (NewDatastore (some es)) ops).Close (some es) = Except.ok (some es) := by
  have hm : (runOps (NewDatastore (some es)) ops).modified = false := by
    rw [runOps_readOnly_modified ops _ h]
    rfl
  refine ⟨hm, ?_⟩
  unfold ZipDatastore.Close
  rw [hm]
  simp

/-- Witness for C8: one on-disk entry, one read of each kind. -/
theorem unmodified_close_is_noop_witness :
    (∀ op ∈ ([Op.getOp (some ⟨1, 1⟩), Op.hasOp (some ⟨1, 1⟩),
        Op.sizeOp (some ⟨1, 1⟩)] : List Op), isReadOp op = true) ∧
    ((runOps (NewDatastore (some [({ name := "b1x1", content := [10] } : ZipFile)]))
        [Op.getOp (some ⟨1, 1⟩), Op.hasOp (some ⟨1, 1⟩), Op.sizeOp (some ⟨1, 1⟩)]).modified
        = false ∧
      (runOps (NewDatastore (some [({ name := "b1x1", content := [10] } : ZipFile)]))
          [Op.getOp (some ⟨1, 1⟩), Op.hasOp (some ⟨1, 1⟩), Op.sizeOp (some ⟨1, 1⟩)]).Close
          (some [({ name := "b1x1", content := [10] } : ZipFile)])
        = Except.ok (some [({ name := "b1x1", content := [10] } : ZipFile)])) :=
  ⟨by decide,
    unmodified_close_is_noop [{ name := "b1x1", content := [10] }]
      [Op.getOp (some ⟨1, 1⟩), Op.hasOp (some ⟨1, 1⟩), Op.sizeOp (some ⟨1, 1⟩)]
      (by decide)⟩

/-- C9 counterexample: the claim states that no operation inserts a new name
as a key of the Index.  On a store opened with no file (index has no keys),
deleting the valid key of CID (1,7) inserts the canonical name b1x7 as a key
of the index map (bound to a nil marker), though it was never a container
entry at open time. -/
theorem delete_inserts_tombstone_key_into_index :
    "b1x7" ∈ GoMap.keys ((NewDatastore none).Delete (some ⟨1, 7⟩)).1.index ∧
    GoMap.keys (NewDatastore none).index = [] :=
  ⟨by decide, rfl⟩

/-- C9 (amended): after any sequence of put/get/has/delete/size operations,
every name the Index maps to a non-nil entry was a real container entry of
that name at open time — operations never bind a new name to a real entry;
`Delete` may only insert nil tombstone markers. -/
theorem index_live_entries_from_open (d : Option (List ZipFile)) (ops : List Op)
    (n : String) (f : ZipFile)
    (h : GoMap.read (runOps (NewDatastore d) ops).index n = some f) :
    ∃ es, d = some es ∧ f ∈ es ∧ f.name = n := by
  have h0 := runOps_index_read ops _ n f h
  cases d with
  | none =>
    rw [show (NewDatastore none).index = [] from rfl] at h0
    cases h0
  | some es =>
    refine ⟨es, rfl, ?_⟩
    have h1 : GoMap.lookup (buildIndexFrom [] es) n = some (some f) :=
      (GoMap.read_eq_some_iff_lookup _ _ _).mp h0
    rcases buildIndexFrom_lookup_mem es n f [] h1 with h2 | h2
    · cases h2
    · exact h2

/-- Witness for the amended C9: one entry on disk, no operations. -/
theorem index_live_entries_from_open_witness :
    ∃ es, (some [({ name := "a", content := [1] } : ZipFile)] : Option (List ZipFile))
        = some es ∧
      ({ name := "a", content := [1] } : ZipFile) ∈ es ∧
      ({ name := "a", content := [1] } : ZipFile).name = "a" :=
  index_live_entries_from_open (some [{ name := "a", content := [1] }]) [] "a"
    { name := "a", content := [1] } rfl

/-- C10: within one session, for a valid key and a non-empty payload,
`Delete` followed by `Put` succeeds, and afterwards `Get` returns the new
payload and `Has` returns true — a tombstone does not block a later put of
the same name from reinstating the record. -/
theorem delete_then_put_reinstates (z : ZipDatastore) (c : Cid) (v : List Nat)
    (_hv : v ≠ []) :
    ((z.Delete (some c)).1.Put (some c) (some v)).2 = none ∧
    (((z.Delete (some c)).1.Put (some c) (some v)).1.Get (some c)).2 = Except.ok v ∧
    ((z.Delete (some c)).1.Put (some c) (some v)).1.Has (some c) = Except.ok true := by
  have hst : (z.Delete (some c)).1 = z.deleteName (canonName c) := by
    rw [Delete_some]
  have hc : GoMap.read (z.deleteName (canonName c)).cache (canonName c) = none := by
    unfold ZipDatastore.deleteName
    dsimp only
    exact GoMap.read_set_self _ _ _
  have hi : GoMap.read (z.deleteName (canonName c)).index (canonName c) = none := by
    unfold ZipDatastore.deleteName
    dsimp only
    exact GoMap.read_set_self _ _ _
  have hhas : (z.deleteName (canonName c)).hasName (canonName c) = false := by
    simp [ZipDatastore.hasName, hc, hi]
  have hput : ((z.Delete (some c)).1.Put (some c) (some v)).1
      = { z.deleteName (canonName c) with
          modified := true
          cache := GoMap.set (z.deleteName (canonName c)).cache (canonName c) (some v) } := by
    rw [hst, Put_some]
    unfold ZipDatastore.putName
    rw [hhas]
    simp
  have hread : GoMap.read
      (GoMap.set (z.deleteName (canonName c)).cache (canonName c) (some v)) (canonName c)
      = some v := GoMap.read_set_self _ _ _
  refine ⟨by rw [hst, Put_some], ?_, ?_⟩
  · rw [hput, Get_some]
    unfold ZipDatastore.getName
    dsimp only
    simp only [hread]
  · rw [hput, Has_some]
    simp [ZipDatastore.hasName, hread]

/-- Witness for C10 on a fresh store with payload [9]. -/
theorem delete_then_put_reinstates_witness :
    ([9] : List Nat) ≠ [] ∧
    ((((NewDatastore none).Delete (some ⟨0, 3⟩)).1.Put (some ⟨0, 3⟩) (some [9])).2 = none ∧
      ((((NewDatastore none).Delete (some ⟨0, 3⟩)).1.Put (some ⟨0, 3⟩)
          (some [9])).1.Get (some ⟨0, 3⟩)).2 = Except.ok [9] ∧
      (((NewDatastore none).Delete (some ⟨0, 3⟩)).1.Put (some ⟨0, 3⟩)
          (some [9])).1.Has (some ⟨0, 3⟩) = Except.ok true) :=
  ⟨by decide, delete_then_put_reinstates (NewDatastore none) ⟨0, 3⟩ [9] (by decide)⟩

end Zipcar
